import Mathlib

/-!
Verification of the trend-processing pipeline of `spotify-africa-trends`
(`src/pipeline/scorer.py`, `src/pipeline/cleaner.py`,
`src/pipeline/orchestrator.py`, data model from `src/connectors/base.py`).

Python strings are modelled as `List Char` (`PyStr`); `str.lower()` is
modelled on the ASCII letters (the only characters the repository's
keyword tables and normalisation pipeline rely on); Python `float` values
(velocity, scoring weights, similarity threshold) are modelled as `ℚ`;
Python `int` as `ℤ`; `None`-able fields as `Option`; the cleaner's
`set`s as lists with membership.  The 16-hex-character truncated SHA-256
content hash of `_compute_content_hash` is modelled by its preimage
string (i.e. the hash function is assumed injective).
-/

namespace SpotPipe

/-- Python strings, modelled as lists of characters. -/
abbrev PyStr := List Char

/-- Whitespace test used by `\s` in `re.sub(r'\s+', ' ', text)` and by
`str.strip()` (ASCII whitespace). -/
def isWsChar (c : Char) : Bool :=
  c = ' ' || c = '\t' || c = '\n' || c = '\r' || c = '\x0b' || c = '\x0c'

/-- ASCII test used by `text.encode('ascii', 'ignore')`. -/
def isAsciiChar (c : Char) : Bool :=
  decide (c.toNat < 128)

/-- The 26 ASCII case pairs `(upper, lower)`. -/
def casePairs : List (Char × Char) :=
  [('A','a'), ('B','b'), ('C','c'), ('D','d'), ('E','e'), ('F','f'),
   ('G','g'), ('H','h'), ('I','i'), ('J','j'), ('K','k'), ('L','l'),
   ('M','m'), ('N','n'), ('O','o'), ('P','p'), ('Q','q'), ('R','r'),
   ('S','s'), ('T','t'), ('U','u'), ('V','v'), ('W','w'), ('X','x'),
   ('Y','y'), ('Z','z')]

/-- `str.lower()` on a single character (ASCII letters). -/
def pyToLower (c : Char) : Char :=
  match casePairs.find? (fun p => p.1 = c) with
  | some p => p.2
  | none => c

/-- `str.upper()` on a single character (ASCII letters). -/
def pyToUpper (c : Char) : Char :=
  match casePairs.find? (fun p => p.2 = c) with
  | some p => p.1
  | none => c

/-- `s.lower()`. -/
def lowerP (s : PyStr) : PyStr := s.map pyToLower

/-- `s.upper()`. -/
def upperP (s : PyStr) : PyStr := s.map pyToUpper

/-- `s.lstrip()` (left half of `str.strip()`). -/
def stripLeftP (s : PyStr) : PyStr := s.dropWhile isWsChar

/-- `s.rstrip()` (right half of `str.strip()`). -/
def stripRightP (s : PyStr) : PyStr := (s.reverse.dropWhile isWsChar).reverse

/-- `s.strip()`. -/
def stripP (s : PyStr) : PyStr := stripRightP (stripLeftP s)

/-- `re.sub(r'\s+', ' ', s)`: collapse every whitespace run to a single
space. -/
def squeezeP : PyStr → PyStr
  | [] => []
  | [c] => [if isWsChar c then ' ' else c]
  | c₁ :: c₂ :: rest =>
    if isWsChar c₁ && isWsChar c₂ then squeezeP (c₂ :: rest)
    else (if isWsChar c₁ then ' ' else c₁) :: squeezeP (c₂ :: rest)

/-- `s.encode('ascii', 'ignore').decode('ascii')`: drop non-ASCII
characters. -/
def asciiFilterP (s : PyStr) : PyStr := s.filter isAsciiChar

/-- `DataCleaner._normalize_text`: collapse whitespace, drop non-ASCII
characters, strip.  (The `if not text: return ""` guard is the identity
on the empty string, which this composition also maps to itself.) -/
def normTextP (s : PyStr) : PyStr := stripP (asciiFilterP (squeezeP s))

/-- Python substring test `pat in s`. -/
def isSubP (pat : PyStr) : PyStr → Bool
  | [] => pat.isEmpty
  | c :: rest => pat.isPrefixOf (c :: rest) || isSubP pat rest

/-- Helper for `str.split()`: accumulate the current word (reversed). -/
def tokensAux : PyStr → PyStr → List PyStr
  | acc, [] => if acc.isEmpty then [] else [acc.reverse]
  | acc, c :: rest =>
    if isWsChar c then
      (if acc.isEmpty then tokensAux [] rest else acc.reverse :: tokensAux [] rest)
    else tokensAux (c :: acc) rest

/-- `s.split()`: whitespace-separated tokens, no empty tokens. -/
def tokensP (s : PyStr) : List PyStr := tokensAux [] s

/-- Python truthiness of an optional string (`None` and `""` are falsy). -/
def optTruthy : Option PyStr → Bool
  | none => false
  | some s => !s.isEmpty

/-- The `metadata` dict of a `TrendItem`, restricted to the only key the
pipeline itself reads or writes: `"merged_sources"` (absent ↦ `none`). -/
structure Metadata where
  mergedSources : Option (List PyStr) := none
deriving DecidableEq, Inhabited

/-- `TrendItem` (`src/connectors/base.py`), restricted to the fields the
pipeline stages under verification read or write.  (`id`, `language`,
`subtopic` and the timestamps are never consulted by the cleaner, scorer
or orchestrator and are omitted.) -/
structure TrendItem where
  source : PyStr := []
  sourceUrl : Option PyStr := none
  title : PyStr := []
  description : PyStr := []
  rawText : PyStr := []
  topic : Option PyStr := none
  market : Option PyStr := none
  volume : ℤ := 0
  engagement : ℤ := 0
  velocity : ℚ := 0
  entities : List (PyStr × List PyStr) := []
  metadata : Metadata := {}
deriving DecidableEq, Inhabited

/-- Dict lookup `item.entities[k]` / `k in item.entities` (keys unique). -/
def lookupKey (ents : List (PyStr × List PyStr)) (k : PyStr) : Option (List PyStr) :=
  (ents.find? (fun p => p.1 = k)).map Prod.snd

/-- The three configurable risk-keyword tiers
(`scoring.risk_keywords` in the configuration). -/
structure RiskKeywords where
  high : List PyStr := []
  medium : List PyStr := []
  low : List PyStr := []
deriving DecidableEq, Inhabited

/-- The slice of the application configuration consumed by `CommsScorer`:
the five component weights (defaults 0.25/0.20/0.20/0.20/0.15), the
per-market weights from `markets.priority` (as `(code, weight)` pairs, a
later pair overriding an earlier one as in the Python dict build), the
risk keyword tiers, and the priority thresholds. -/
structure ScorerConfig where
  weightVelocity : ℚ := 1/4
  weightReach : ℚ := 1/5
  weightMarket : ℚ := 1/5
  weightAdjacency : ℚ := 1/5
  weightRisk : ℚ := 3/20
  marketWeights : List (PyStr × ℚ) := []
  riskKeywords : RiskKeywords := {}
  thresholdHigh : ℚ := 75
  thresholdMedium : ℚ := 50
deriving Inhabited

/-- `self.market_weights.get(market, 1.0)`; the dict comprehension keeps
the last pair for a repeated code, hence the lookup on the reversed
list. -/
def getMarketWeight (cfg : ScorerConfig) (m : PyStr) : ℚ :=
  match cfg.marketWeights.reverse.find? (fun p => p.1 = m) with
  | some p => p.2
  | none => 1

/-- `CommsScorer._score_velocity` (score only; the accompanying reason
strings are not subject to any claim and are omitted throughout). -/
def scoreVelocity (item : TrendItem) : ℚ :=
  if 2 ≤ item.velocity then 100
  else if 1 ≤ item.velocity then 80
  else if 1/2 ≤ item.velocity then 60
  else if 1/5 ≤ item.velocity then 40
  else if 0 < item.velocity then 20
  else 10

/-- `CommsScorer._score_reach`. -/
def scoreReach (item : TrendItem) : ℚ :=
  let combined : ℤ := item.volume + item.engagement * 2
  if 1000000 ≤ combined then 100
  else if 100000 ≤ combined then 80
  else if 10000 ≤ combined then 60
  else if 1000 ≤ combined then 40
  else if 100 ≤ combined then 20
  else 10

/-- `CommsScorer._score_market_impact` (`if not market: return 30`,
else `min(weight * 50, 100)`). -/
def scoreMarketImpact (cfg : ScorerConfig) (item : TrendItem) : ℚ :=
  match item.market with
  | none => 30
  | some m => if m.isEmpty then 30 else min (getMarketWeight cfg m * 50) 100

/-- The competitor names scanned by `_score_spotify_adjacency`. -/
def competitorNames : List PyStr :=
  ["apple music".toList, "boomplay".toList, "audiomack".toList,
   "youtube music".toList, "deezer".toList]

/-- The music keywords scanned by `_score_spotify_adjacency`. -/
def musicKeywords : List PyStr :=
  ["song".toList, "music".toList, "album".toList, "track".toList,
   "playlist".toList, "stream".toList, "listen".toList]

/-- `CommsScorer._score_spotify_adjacency`. -/
def scoreAdjacency (item : TrendItem) : ℚ :=
  let text := lowerP (item.title ++ ' ' :: item.description)
  if isSubP "spotify".toList text then 100
  else if competitorNames.any (fun comp => isSubP comp text) then 90
  else
    match lookupKey item.entities "artists".toList with
    | some artists => min (70 + (artists.length : ℚ) * 10) 95
    | none =>
      if item.topic = some "music_audio".toList then 70
      else if musicKeywords.any (fun kw => isSubP kw text) then 60
      else if item.topic = some "culture".toList then 40
      else 20

/-- The text `_score_risk` scans: `f"{title} {description} {raw_text}".lower()`. -/
def riskTextOf (item : TrendItem) : PyStr :=
  lowerP (item.title ++ ' ' :: item.description ++ ' ' :: item.rawText)

/-- The keywords of one tier found in the item's risk text (in tier-list
order, as the Python loop appends them). -/
def hitsTier (kws : List PyStr) (item : TrendItem) : List PyStr :=
  kws.filter (fun kw => isSubP (lowerP kw) (riskTextOf item))

/-- `topic_risk` in `_score_risk`: 1.5 for current-affairs/brand-comms
topics, else 1.0. -/
def topicRiskMult (item : TrendItem) : ℚ :=
  if item.topic = some "current_affairs".toList ∨ item.topic = some "brand_comms".toList
  then 3/2 else 1

/-- `CommsScorer._score_risk`: returns
`(min(score, 100), risk_level, found_keywords)`. -/
def scoreRisk (cfg : ScorerConfig) (item : TrendItem) : ℚ × PyStr × List PyStr :=
  let highF := hitsTier cfg.riskKeywords.high item
  let medF := hitsTier cfg.riskKeywords.medium item
  let lowF := hitsTier cfg.riskKeywords.low item
  let found := highF ++ medF ++ lowF
  let level :=
    if ¬ highF.isEmpty then "high".toList
    else if ¬ medF.isEmpty then "medium".toList
    else "low".toList
  let score : ℚ :=
    if ¬ highF.isEmpty then 100 * topicRiskMult item
    else if ¬ medF.isEmpty then 60 * topicRiskMult item
    else if ¬ found.isEmpty then 30
    else 10
  (min score 100, level, found)

/-- `ScoreBreakdown` (scores, risk flags, action and confidence; the
per-component reason strings are not subject to any claim and are
omitted). -/
structure ScoreBreakdown where
  velocityScore : ℚ := 0
  reachScore : ℚ := 0
  marketImpactScore : ℚ := 0
  spotifyAdjacencyScore : ℚ := 0
  riskScore : ℚ := 0
  totalScore : ℚ := 0
  riskLevel : PyStr := "low".toList
  riskKeywordsFound : List PyStr := []
  suggestedAction : PyStr := "monitor".toList
  confidence : PyStr := "medium".toList

/-- `CommsScorer._determine_action`. -/
def determineAction (b : ScoreBreakdown) : PyStr :=
  if b.riskLevel = "high".toList then
    (if 80 ≤ b.spotifyAdjacencyScore then "escalate".toList else "avoid".toList)
  else if 80 ≤ b.totalScore then
    (if 70 ≤ b.spotifyAdjacencyScore then "engage".toList else "monitor".toList)
  else if 60 ≤ b.totalScore then
    (if 80 ≤ b.spotifyAdjacencyScore then "partner".toList
     else if b.riskLevel = "medium".toList then "monitor".toList
     else "engage".toList)
  else if b.riskLevel = "medium".toList then "monitor".toList
  else "monitor".toList

/-- `CommsScorer._determine_confidence` (the `breakdown` parameter of the
Python method is never read and is dropped here):
`sources = item.metadata.get("merged_sources", [item.source])`, then the
points system over `len(sources)`, entity count, velocity and market. -/
def determineConfidence (item : TrendItem) : PyStr :=
  let sources := match item.metadata.mergedSources with
    | some l => l
    | none => [item.source]
  let sourceCount := sources.length
  let entityCount := (item.entities.map (fun p => p.2.length)).sum
  let c₁ : ℕ := if 3 ≤ sourceCount then 3 else if 2 ≤ sourceCount then 2 else 1
  let c₂ : ℕ := if 3 ≤ entityCount then 2 else if 1 ≤ entityCount then 1 else 0
  let c₃ : ℕ := if 0 < item.velocity then 2 else 0
  let c₄ : ℕ := if optTruthy item.market then 1 else 0
  let score := c₁ + c₂ + c₃ + c₄
  if 6 ≤ score then "high".toList
  else if 3 ≤ score then "medium".toList
  else "low".toList

/-- `CommsScorer.score_item`: the five components, the weighted total,
then the suggested action and confidence. -/
def scoreItem (cfg : ScorerConfig) (item : TrendItem) : ScoreBreakdown :=
  let v := scoreVelocity item
  let r := scoreReach item
  let m := scoreMarketImpact cfg item
  let a := scoreAdjacency item
  let rk := scoreRisk cfg item
  let total :=
    v * cfg.weightVelocity + r * cfg.weightReach + m * cfg.weightMarket +
    a * cfg.weightAdjacency + rk.1 * cfg.weightRisk
  let b : ScoreBreakdown :=
    { velocityScore := v, reachScore := r, marketImpactScore := m,
      spotifyAdjacencyScore := a, riskScore := rk.1, totalScore := total,
      riskLevel := rk.2.1, riskKeywordsFound := rk.2.2 }
  { b with suggestedAction := determineAction b,
           confidence := determineConfidence item }

/-! ### Cleaner (`src/pipeline/cleaner.py`) -/

/-- `DataCleaner._normalize_item`: normalise the text fields (each only
when truthy) and upper-case/strip the market code. -/
def normalizeItem (it : TrendItem) : TrendItem :=
  { it with
    title := if it.title.isEmpty then it.title else normTextP it.title,
    description := if it.description.isEmpty then it.description else normTextP it.description,
    rawText := if it.rawText.isEmpty then it.rawText else normTextP it.rawText,
    market := match it.market with
      | none => none
      | some m => if m.isEmpty then some m else some (stripP (upperP m)) }

/-- `DataCleaner._compute_content_hash`: the SHA-256-over-
`f"{source}:{title.lower().strip()}"` content hash, modelled by its
preimage string (hash assumed injective). -/
def contentHashKey (it : TrendItem) : PyStr :=
  it.source ++ ':' :: stripP (lowerP it.title)

/-- The cleaner's run-scoped dedup state (`seen_urls` / `seen_hashes`). -/
structure CleanState where
  seenUrls : List PyStr := []
  seenHashes : List PyStr := []
deriving DecidableEq, Inhabited

/-- The content-hash half of `DataCleaner._is_duplicate`. -/
def hashCheck (st : CleanState) (it : TrendItem) : Bool × CleanState :=
  if contentHashKey it ∈ st.seenHashes then (true, st)
  else (false, { st with seenHashes := contentHashKey it :: st.seenHashes })

/-- `DataCleaner._is_duplicate`: URL-based dedup first (skipped for a
falsy `source_url`), then content-hash dedup; both sets are updated on a
miss. -/
def isDuplicateStep (st : CleanState) (it : TrendItem) : Bool × CleanState :=
  match it.sourceUrl with
  | none => hashCheck st it
  | some u =>
    if u.isEmpty then hashCheck st it
    else if stripP (lowerP u) ∈ st.seenUrls then (true, st)
    else hashCheck { st with seenUrls := stripP (lowerP u) :: st.seenUrls } it

/-- The four literal spam patterns of `_passes_quality_check`. -/
def spamLiterals : List PyStr :=
  ["click here".toList, "buy now".toList, "limited offer".toList, "act fast".toList]

/-- Digit test for the `[0-9]{4,}\s*followers` spam pattern. -/
def isDigitChar (c : Char) : Bool := '0' ≤ c && c ≤ '9'

/-- Match of `[0-9]{4,}\s*followers` anchored at the start of `s`. -/
def followersAt (s : PyStr) : Bool :=
  let ds := s.takeWhile isDigitChar
  4 ≤ ds.length && "followers".toList.isPrefixOf ((s.drop ds.length).dropWhile isWsChar)

/-- `re.search` of `[0-9]{4,}\s*followers` anywhere in `s`. -/
def hasFollowersSpam : PyStr → Bool
  | [] => false
  | c :: rest => followersAt (c :: rest) || hasFollowersSpam rest

/-- `DataCleaner._passes_quality_check`: a title of fewer than 3
characters fails; a spam-pattern match on the lowered title+description
fails. -/
def passesQuality (it : TrendItem) : Bool :=
  if it.title.length < 3 then false
  else
    let text := lowerP (it.title ++ ' ' :: it.description)
    !(spamLiterals.any (fun p => isSubP p text) || hasFollowersSpam text)

/-- What `clean_batch` did with one item. -/
inductive CleanDispo where
  | kept
  | duplicate
  | lowQuality
deriving DecidableEq

/-- One iteration of the `clean_batch` loop: normalise, dedup-check,
quality-check. -/
def cleanStep (st : CleanState) (it : TrendItem) : CleanState × TrendItem × CleanDispo :=
  match isDuplicateStep st (normalizeItem it) with
  | (true, st') => (st', normalizeItem it, .duplicate)
  | (false, st') =>
    if passesQuality (normalizeItem it) then (st', normalizeItem it, .kept)
    else (st', normalizeItem it, .lowQuality)

/-- The `clean_batch` loop, instrumented with each item's disposition. -/
def cleanBatchAux (st : CleanState) : List TrendItem → List (TrendItem × CleanDispo)
  | [] => []
  | it :: rest =>
    let r := cleanStep st it
    (r.2.1, r.2.2) :: cleanBatchAux r.1 rest

/-- `DataCleaner.clean_batch`, starting from freshly `reset()` dedup
state (as the orchestrator guarantees): the kept items, in order. -/
def cleanBatch (items : List TrendItem) : List TrendItem :=
  (cleanBatchAux {} items).filterMap
    (fun p => if p.2 = CleanDispo.kept then some p.1 else none)

/-- Disposition of the `j`-th item of a batch under `clean_batch`. -/
def dispoAt (items : List TrendItem) (j : ℕ) : Option CleanDispo :=
  ((cleanBatchAux {} items)[j]?).map (fun p => p.2)

/-! ### Cross-source fuzzy dedup (`dedupe_across_sources`) -/

/-- `set(text.lower().split())` in `_are_similar` (a deduplicated token
list). -/
def jaccardTokens (t : PyStr) : List PyStr := (tokensP (lowerP t)).dedup

/-- `len(words1 & words2)` in `_are_similar`. -/
def jaccardInter (t1 t2 : PyStr) : ℕ :=
  ((jaccardTokens t1).filter (fun w => w ∈ jaccardTokens t2)).length

/-- `len(words1 | words2)` in `_are_similar`. -/
def jaccardUnion (t1 t2 : PyStr) : ℕ :=
  ((jaccardTokens t1 ++ jaccardTokens t2).dedup).length

/-- `DataCleaner._are_similar`: token-set Jaccard similarity of the
lowered titles against a threshold; empty strings and empty unions are
never similar. -/
def areSimilarP (t1 t2 : PyStr) (th : ℚ) : Bool :=
  if t1.isEmpty || t2.isEmpty then false
  else if jaccardUnion t1 t2 = 0 then false
  else decide (th ≤ (jaccardInter t1 t2 : ℚ) / (jaccardUnion t1 t2 : ℚ))

/-- The Python tuple order on `(engagement, len(description))` used by
`max(group, key=...)`. -/
def itemKeyLt (a b : TrendItem) : Prop :=
  a.engagement < b.engagement ∨
    (a.engagement = b.engagement ∧ a.description.length < b.description.length)

instance (a b : TrendItem) : Decidable (itemKeyLt a b) := by
  unfold itemKeyLt; infer_instance

/-- Non-strict version of `itemKeyLt`. -/
def itemKeyLe (a b : TrendItem) : Prop :=
  a.engagement < b.engagement ∨
    (a.engagement = b.engagement ∧ a.description.length ≤ b.description.length)

/-- Python `max(group, key=...)`: fold over the tail, replacing the
current best exactly when the candidate's key is strictly greater (ties
keep the earlier item). -/
def pickBestAux (b : TrendItem) : List TrendItem → TrendItem
  | [] => b
  | x :: rest => pickBestAux (if itemKeyLt b x then x else b) rest

/-- `best.metadata["merged_sources"] = srcs`. -/
def setMerged (it : TrendItem) (srcs : List PyStr) : TrendItem :=
  { it with metadata := { it.metadata with mergedSources := some srcs } }

/-- The greedy grouping loop of `dedupe_across_sources`: the first
unused item seeds a group consisting of every later unused item whose
title is similar to the *seed's* title; returned as `(seed, rest)`
pairs. -/
def buildGroups (th : ℚ) : List TrendItem → List (TrendItem × List TrendItem)
  | [] => []
  | x :: rest =>
    let p := rest.partition (fun y => areSimilarP x.title y.title th)
    (x, p.1) :: buildGroups th p.2
termination_by l => l.length
decreasing_by
  simp only [List.partition_eq_filter_filter]
  exact Nat.lt_succ_of_le (List.length_filter_le _ _)

/-- Survivor selection for one group: a singleton group passes through
unchanged; otherwise the `max(group, key=(engagement, len(description)))`
member survives with `metadata["merged_sources"]` set to every group
member's source (in group order). -/
def pickGroupPair (p : TrendItem × List TrendItem) : TrendItem :=
  if p.2.isEmpty then p.1
  else setMerged (pickBestAux p.1 p.2) (p.1.source :: p.2.map (fun x => x.source))

/-- `DataCleaner.dedupe_across_sources` (default threshold 0.8). -/
def dedupeAcrossSources (th : ℚ) (items : List TrendItem) : List TrendItem :=
  if items.length ≤ 1 then items
  else (buildGroups th items).map pickGroupPair

/-! ### Orchestrator (`src/pipeline/orchestrator.py`) -/

/-- The dictionary `run_full_pipeline` returns, restricted to the keys
the claims consult (`success`, `message`, `error`, `summaries`, and the
`error`/`success` entries of `metrics`; a `none` models an absent key). -/
structure PipelineResult (σ : Type) where
  success : Bool
  message : Option String := none
  errorMsg : Option String := none
  summaries : List σ := []
  metricsError : Option String := none
  metricsSuccess : Option Bool := none
deriving DecidableEq

/-- The five processing stages invoked inside the orchestrator's `try`
block (stage 2, Clean, runs `clean_batch` then `dedupe_across_sources`).
Each stage is a Python call that either returns a value or raises an
exception carrying a message — modelled as `Except String`. -/
structure PipelineStages (σ : Type) where
  clean : List TrendItem → Except String (List TrendItem)
  dedupe : List TrendItem → Except String (List TrendItem)
  enrich : List TrendItem → Except String (List TrendItem)
  classify : List TrendItem → Except String (List TrendItem)
  score : List TrendItem → Except String (List (TrendItem × ScoreBreakdown))
  summarise : List (TrendItem × ScoreBreakdown) → Except String (List σ)

/-- The body of the `try` block after the empty-collection check: the
stage chain, propagating the first exception. -/
def runStages {σ : Type} (st : PipelineStages σ) (items : List TrendItem) :
    Except String (List σ) := do
  let cleaned ← st.clean items
  let deduped ← st.dedupe cleaned
  let enriched ← st.enrich deduped
  let classified ← st.classify enriched
  let scored ← st.score classified
  st.summarise scored

/-- `PipelineOrchestrator.run_full_pipeline`, given the per-source
collection results (each source's list of items, in `results` order;
`all_items` is their concatenation): the zero-item early return, the
staged `try` body, and the `except` handler that converts any stage
exception into a failure dictionary recording the message under
`metrics["error"]`. -/
def runFullPipeline {σ : Type} (st : PipelineStages σ)
    (results : List (List TrendItem)) : PipelineResult σ :=
  let allItems := results.flatten
  if allItems.isEmpty then
    { success := false,
      message := some "No items collected from any source",
      summaries := [] }
  else
    match runStages st allItems with
    | .ok s =>
      { success := true, summaries := s, metricsSuccess := some true }
    | .error e =>
      { success := false, errorMsg := some e, summaries := [],
        metricsError := some e, metricsSuccess := some false }

/-! ### Shared concrete fixtures -/

/-- A configuration with `"scandal"` as a high-tier risk keyword and
`ZA` as a priority market (weight 1.5), otherwise the defaults. -/
def demoCfg : ScorerConfig :=
  { riskKeywords := { high := ["scandal".toList] },
    marketWeights := [("ZA".toList, 3/2)] }

/-- The escalation-scenario item
`{title: "Spotify outage scandal", description: "Platform faces backlash", market: "ZA"}`. -/
def escItem : TrendItem :=
  { source := "news_rss".toList,
    title := "Spotify outage scandal".toList,
    description := "Platform faces backlash".toList,
    market := some "ZA".toList }

/-- An item whose topic carries the 1.5 risk multiplier and whose text
hits the high-tier keyword `"scandal"` of `demoCfg`. -/
def riskItemCE : TrendItem :=
  { source := "news_rss".toList,
    title := "scandal brews".toList,
    topic := some "current_affairs".toList }

/-- Stage functions that never raise (each stage returns its input shape
trivially). -/
def trivialStages : PipelineStages Unit :=
  { clean := fun l => .ok l, dedupe := fun l => .ok l, enrich := fun l => .ok l,
    classify := fun l => .ok l, score := fun _ => .ok [],
    summarise := fun _ => .ok [] }

/-- Stage functions whose Clean stage raises `"boom"`. -/
def failingCleanStages : PipelineStages Unit :=
  { trivialStages with clean := fun _ => .error "boom" }

/-! ### C9 — velocity score monotonicity -/

/-- Claim C9: increasing `velocity` (every other field held fixed) never
decreases `_score_velocity`'s score. -/
theorem scoreVelocity_monotone_C9 (item : TrendItem) (v₁ v₂ : ℚ) (h : v₁ ≤ v₂) :
    scoreVelocity { item with velocity := v₁ } ≤ scoreVelocity { item with velocity := v₂ } := by
  unfold scoreVelocity
  dsimp only
  split_ifs <;> linarith

/-- Witness for C9 at the bucket boundary `0.2 ≤ 0.5`. -/
theorem scoreVelocity_monotone_C9_witness :
    (1/5 : ℚ) ≤ 1/2 ∧
      scoreVelocity { velocity := 1/5 } ≤ scoreVelocity { velocity := 1/2 } :=
  ⟨by norm_num, scoreVelocity_monotone_C9 {} (1/5) (1/2) (by norm_num)⟩

/-! ### C3 — empty collection -/

/-- Claim C3: when every source contributed zero items,
`run_full_pipeline` returns `success=False`, the non-empty message
`"No items collected from any source"`, and `summaries=[]` (a returned
dictionary, not an exception). -/
theorem runFullPipeline_emptyCollection_C3 {σ : Type} (st : PipelineStages σ)
    (results : List (List TrendItem)) (h : ∀ r ∈ results, r = []) :
    (runFullPipeline st results).success = false ∧
    (runFullPipeline st results).message = some "No items collected from any source" ∧
    "No items collected from any source" ≠ "" ∧
    (runFullPipeline st results).summaries = [] := by
  have hflat : results.flatten = [] := by
    induction results with
    | nil => rfl
    | cons r rs ih =>
      have hr := h r (List.mem_cons_self r rs)
      have := ih (fun x hx => h x (List.mem_cons_of_mem r hx))
      simp [hr, this]
  unfold runFullPipeline
  rw [hflat]
  refine ⟨rfl, rfl, ?_, rfl⟩
  decide

/-- Witness for C3: two sources, both returning zero items. -/
theorem runFullPipeline_emptyCollection_C3_witness :
    (∀ r ∈ ([[], []] : List (List TrendItem)), r = []) ∧
    ((runFullPipeline trivialStages [[], []]).success = false ∧
     (runFullPipeline trivialStages [[], []]).message =
       some "No items collected from any source" ∧
     "No items collected from any source" ≠ "" ∧
     (runFullPipeline trivialStages [[], []]).summaries = []) :=
  ⟨by simp, runFullPipeline_emptyCollection_C3 trivialStages [[], []] (by simp)⟩

/-! ### C4 — stage exceptions are caught -/

/-- Claim C4: whenever the staged `try` body
(Clean → dedupe → Enrich → Classify → Score → Summarise) raises an
exception with message `msg` on a non-empty collection, the orchestrator
catches it and returns `success=False`, `summaries=[]`, with `msg`
recorded under `metrics["error"]`. -/
theorem runFullPipeline_stageError_C4 {σ : Type} (st : PipelineStages σ)
    (results : List (List TrendItem)) (msg : String)
    (hne : results.flatten ≠ [])
    (herr : runStages st results.flatten = .error msg) :
    (runFullPipeline st results).success = false ∧
    (runFullPipeline st results).summaries = [] ∧
    (runFullPipeline st results).metricsError = some msg := by
  have hie : results.flatten.isEmpty = false := by
    cases hfl : results.flatten with
    | nil => exact absurd hfl hne
    | cons a l => rfl
  simp only [runFullPipeline, hie, Bool.false_eq_true, if_false, herr]
  exact ⟨trivial, trivial, trivial⟩

/-- Witness for C4: a one-item collection with a Clean stage that
raises. -/
theorem runFullPipeline_stageError_C4_witness :
    ([[({} : TrendItem)]] : List (List TrendItem)).flatten ≠ [] ∧
    runStages failingCleanStages [({} : TrendItem)] = .error "boom" ∧
    ((runFullPipeline failingCleanStages [[({} : TrendItem)]]).success = false ∧
     (runFullPipeline failingCleanStages [[({} : TrendItem)]]).summaries = [] ∧
     (runFullPipeline failingCleanStages [[({} : TrendItem)]]).metricsError = some "boom") :=
  ⟨by simp, rfl,
    runFullPipeline_stageError_C4 failingCleanStages [[{}]] "boom" (by simp) rfl⟩

/-! ### C5 — high-risk action -/

/-- Claim C5: for any breakdown with `risk_level="high"`,
`_determine_action` returns `"escalate"` when the adjacency score is at
least 80 and `"avoid"` otherwise; and the escalation scenario
(`"Spotify outage scandal"` / `"Platform faces backlash"` with
`high:["scandal"]` configured) scores `risk_level="high"`,
`spotify_adjacency_score=100` and `suggested_action="escalate"`. -/
theorem determineAction_highRisk_C5 :
    (∀ b : ScoreBreakdown, b.riskLevel = "high".toList →
      determineAction b =
        (if 80 ≤ b.spotifyAdjacencyScore then "escalate".toList else "avoid".toList)) ∧
    (scoreItem demoCfg escItem).riskLevel = "high".toList ∧
    (scoreItem demoCfg escItem).spotifyAdjacencyScore = 100 ∧
    (scoreItem demoCfg escItem).suggestedAction = "escalate".toList := by
  refine ⟨fun b hb => ?_, by decide, by decide, by decide⟩
  unfold determineAction
  rw [if_pos hb]

/-- Witness for C5's universally quantified part, instantiated at the
breakdown the escalation scenario produces. -/
theorem determineAction_highRisk_C5_witness :
    determineAction (scoreItem demoCfg escItem) =
      (if 80 ≤ (scoreItem demoCfg escItem).spotifyAdjacencyScore
       then "escalate".toList else "avoid".toList) :=
  determineAction_highRisk_C5.1 (scoreItem demoCfg escItem) (by decide)

/-! ### C2 — risk tiers and the topic multiplier (corrected) -/

/-- Counterexample to C2 as stated: for an item whose text hits the
high-tier keyword `"scandal"` and whose topic `current_affairs` carries
the 1.5 multiplier, `_score_risk` returns `min(100 * 1.5, 100) = 100`,
not the claimed `100 × topic_risk_multiplier = 150`. -/
theorem scoreRisk_cap_CE_C2 :
    (scoreRisk demoCfg riskItemCE).1 = 100 ∧
    100 * topicRiskMult riskItemCE = 150 ∧ (100 : ℚ) ≠ 150 := by
  have h : hitsTier demoCfg.riskKeywords.high riskItemCE = ["scandal".toList] := by decide
  have hm : topicRiskMult riskItemCE = 3/2 := by
    unfold topicRiskMult
    rw [if_pos]
    · left; decide
  refine ⟨?_, by rw [hm]; norm_num, by norm_num⟩
  simp only [scoreRisk, h, hm]
  norm_num

/-- Claim C2 as amended: `risk_level` is the highest tier with a hit and
never depends on the topic; the returned score is the tier score times
the topic multiplier, capped at 100 by the final `min(score, 100)` — so
a high-tier hit scores exactly 100 (the 1.5 multiplier is absorbed by
the cap), a medium-tier hit scores `60 × topic_risk_multiplier`, a
low-tier-only hit scores 30, and no hit scores 10. -/
theorem scoreRisk_tiers_C2 (cfg : ScorerConfig) (item : TrendItem) :
    (hitsTier cfg.riskKeywords.high item ≠ [] →
      (scoreRisk cfg item).2.1 = "high".toList ∧ (scoreRisk cfg item).1 = 100) ∧
    (hitsTier cfg.riskKeywords.high item = [] →
     hitsTier cfg.riskKeywords.medium item ≠ [] →
      (scoreRisk cfg item).2.1 = "medium".toList ∧
      (scoreRisk cfg item).1 = 60 * topicRiskMult item) ∧
    (hitsTier cfg.riskKeywords.high item = [] →
     hitsTier cfg.riskKeywords.medium item = [] →
     hitsTier cfg.riskKeywords.low item ≠ [] →
      (scoreRisk cfg item).2.1 = "low".toList ∧ (scoreRisk cfg item).1 = 30) ∧
    (hitsTier cfg.riskKeywords.high item = [] →
     hitsTier cfg.riskKeywords.medium item = [] →
     hitsTier cfg.riskKeywords.low item = [] →
      (scoreRisk cfg item).2.1 = "low".toList ∧ (scoreRisk cfg item).1 = 10) := by
  have hmult : topicRiskMult item = 1 ∨ topicRiskMult item = 3/2 := by
    unfold topicRiskMult
    split_ifs with h
    · right; rfl
    · left; rfl
  refine ⟨fun hh => ?_, fun hh hm => ?_, fun hh hm hl => ?_, fun hh hm hl => ?_⟩
  · have hne : (hitsTier cfg.riskKeywords.high item).isEmpty = false := by
      simpa [List.isEmpty_iff] using hh
    refine ⟨by simp [scoreRisk, hne], ?_⟩
    simp only [scoreRisk, hne, Bool.false_eq_true, not_false_eq_true, if_true]
    rcases hmult with h1 | h1 <;> rw [h1] <;> norm_num
  · have hne : (hitsTier cfg.riskKeywords.medium item).isEmpty = false := by
      simpa [List.isEmpty_iff] using hm
    refine ⟨by simp [scoreRisk, hh, hne], ?_⟩
    simp only [scoreRisk, hh, hne, List.isEmpty_nil, Bool.false_eq_true,
      not_false_eq_true, if_true, not_true_eq_false, if_false]
    rcases hmult with h1 | h1 <;> rw [h1] <;> norm_num
  · have hne : (hitsTier cfg.riskKeywords.low item).isEmpty = false := by
      simpa [List.isEmpty_iff] using hl
    refine ⟨by simp [scoreRisk, hh, hm, hne], ?_⟩
    simp only [scoreRisk, hh, hm, hne, List.isEmpty_nil, List.nil_append,
      Bool.false_eq_true, not_false_eq_true, if_true, not_true_eq_false, if_false]
    norm_num
  · refine ⟨by simp [scoreRisk, hh, hm, hl], ?_⟩
    simp only [scoreRisk, hh, hm, hl, List.isEmpty_nil, List.nil_append,
      not_true_eq_false, if_false]
    norm_num

/-- Witness for C2's amended theorem: the medium-tier clause at a
concrete medium-keyword hit with the 1.5 topic multiplier
(score `60 × 1.5 = 90`). -/
theorem scoreRisk_tiers_C2_witness :
    (scoreRisk { riskKeywords := { medium := ["protest".toList] } }
        { riskItemCE with title := "protest outside venue".toList }).2.1 =
      "medium".toList ∧
    (scoreRisk { riskKeywords := { medium := ["protest".toList] } }
        { riskItemCE with title := "protest outside venue".toList }).1 =
      60 * topicRiskMult { riskItemCE with title := "protest outside venue".toList } :=
  (scoreRisk_tiers_C2 { riskKeywords := { medium := ["protest".toList] } }
    { riskItemCE with title := "protest outside venue".toList }).2.1
    (by decide) (by decide)

/-! ### C8 — confidence points (corrected) -/

/-- Modelled from the claim's words (the specification side of C8, for
comparison with `determineConfidence`): the same points system but
counting *distinct* source names in `metadata["merged_sources"]`. -/
def confidenceSpecDistinct (item : TrendItem) : PyStr :=
  let sources := match item.metadata.mergedSources with
    | some l => l
    | none => [item.source]
  let sourceCount := sources.dedup.length
  let entityCount := (item.entities.map (fun p => p.2.length)).sum
  let c₁ : ℕ := if 3 ≤ sourceCount then 3 else if 2 ≤ sourceCount then 2 else 1
  let c₂ : ℕ := if 3 ≤ entityCount then 2 else if 1 ≤ entityCount then 1 else 0
  let c₃ : ℕ := if 0 < item.velocity then 2 else 0
  let c₄ : ℕ := if optTruthy item.market then 1 else 0
  let score := c₁ + c₂ + c₃ + c₄
  if 6 ≤ score then "high".toList
  else if 3 ≤ score then "medium".toList
  else "low".toList

/-- An item whose `merged_sources` holds the same source name three
times (a fuzzy-dedup group of three items from one connector). -/
def confItemCE : TrendItem :=
  { source := "reddit".toList,
    title := "abc".toList,
    metadata :=
      { mergedSources := some ["reddit".toList, "reddit".toList, "reddit".toList] } }

/-- Counterexample to C8 as stated: with `merged_sources =
["reddit","reddit","reddit"]` (one distinct name), the code counts
`len(sources) = 3` and awards +3 points, yielding `"medium"`, while the
claimed distinct-name count awards +1, yielding `"low"`. -/
theorem determineConfidence_multiplicity_CE_C8 :
    determineConfidence confItemCE = "medium".toList ∧
    confidenceSpecDistinct confItemCE = "low".toList ∧
    "medium".toList ≠ "low".toList := by
  refine ⟨by decide, by decide, by decide⟩

/-- Claim C8 as amended: the code's points system counts the *length* of
`metadata["merged_sources"]` (with multiplicity; 1 when the key is
absent), then +2/+1 for ≥3/≥1 extracted entities, +2 for positive
velocity, +1 for a truthy market, with `high` exactly at ≥6 points and
`medium` exactly at 3–5 points. -/
theorem determineConfidence_points_C8 (item : TrendItem) :
    determineConfidence item =
      (let sourceCount := match item.metadata.mergedSources with
        | some l => l.length
        | none => 1
       let points :=
         (if 3 ≤ sourceCount then 3 else if 2 ≤ sourceCount then 2 else 1) +
         (if 3 ≤ (item.entities.map (fun p => p.2.length)).sum then 2
          else if 1 ≤ (item.entities.map (fun p => p.2.length)).sum then 1 else 0) +
         (if 0 < item.velocity then 2 else 0) +
         (if optTruthy item.market then 1 else 0)
       if 6 ≤ points then "high".toList
       else if 3 ≤ points then "medium".toList
       else "low".toList) := by
  cases h : item.metadata.mergedSources <;> simp [determineConfidence, h]

/-! ### C1 — score bounds -/

/-- The velocity component only takes the bucket values 10–100. -/
theorem scoreVelocity_bounds (item : TrendItem) :
    0 ≤ scoreVelocity item ∧ scoreVelocity item ≤ 100 := by
  unfold scoreVelocity; split_ifs <;> norm_num

/-- The reach component only takes the bucket values 10–100. -/
theorem scoreReach_bounds (item : TrendItem) :
    0 ≤ scoreReach item ∧ scoreReach item ≤ 100 := by
  unfold scoreReach; dsimp only; split_ifs <;> norm_num

/-- With non-negative configured market weights, the looked-up weight is
non-negative (the default is 1.0). -/
theorem getMarketWeight_nonneg (cfg : ScorerConfig) (m : PyStr)
    (hmw : ∀ p ∈ cfg.marketWeights, 0 ≤ p.2) : 0 ≤ getMarketWeight cfg m := by
  unfold getMarketWeight
  cases hf : cfg.marketWeights.reverse.find? (fun p => p.1 = m) with
  | none => norm_num
  | some p => exact hmw p (List.mem_reverse.mp (List.mem_of_find?_eq_some hf))

/-- With non-negative configured market weights, the market-impact
component lies in [0, 100]. -/
theorem scoreMarketImpact_bounds (cfg : ScorerConfig) (item : TrendItem)
    (hmw : ∀ p ∈ cfg.marketWeights, 0 ≤ p.2) :
    0 ≤ scoreMarketImpact cfg item ∧ scoreMarketImpact cfg item ≤ 100 := by
  unfold scoreMarketImpact
  cases item.market with
  | none => norm_num
  | some m =>
    dsimp only
    split_ifs
    · norm_num
    · exact ⟨le_min (mul_nonneg (getMarketWeight_nonneg cfg m hmw) (by norm_num))
        (by norm_num), min_le_right _ _⟩

/-- The adjacency component lies in [0, 100] (the artist branch is
capped at 95). -/
theorem scoreAdjacency_bounds (item : TrendItem) :
    0 ≤ scoreAdjacency item ∧ scoreAdjacency item ≤ 100 := by
  unfold scoreAdjacency
  cases hk : lookupKey item.entities "artists".toList with
  | none =>
    simp only [hk]
    split_ifs <;> norm_num
  | some artists =>
    simp only [hk]
    split_ifs
    · norm_num
    · norm_num
    · exact ⟨le_min (by positivity) (by norm_num), (min_le_right _ _).trans (by norm_num)⟩

/-- The topic risk multiplier is non-negative. -/
theorem topicRiskMult_nonneg (item : TrendItem) : 0 ≤ topicRiskMult item := by
  unfold topicRiskMult; split_ifs <;> norm_num

/-- The risk component lies in [0, 100] (the final `min(score, 100)`
caps it above; every tier score is non-negative). -/
theorem scoreRisk_bounds (cfg : ScorerConfig) (item : TrendItem) :
    0 ≤ (scoreRisk cfg item).1 ∧ (scoreRisk cfg item).1 ≤ 100 := by
  have hm := topicRiskMult_nonneg item
  simp only [scoreRisk]
  refine ⟨le_min ?_ (by norm_num), min_le_right _ _⟩
  split_ifs <;> (try norm_num) <;> exact hm

/-- Unfolding equation for `score_item`'s weighted total. -/
theorem scoreItem_totalScore (cfg : ScorerConfig) (item : TrendItem) :
    (scoreItem cfg item).totalScore =
      scoreVelocity item * cfg.weightVelocity + scoreReach item * cfg.weightReach +
      scoreMarketImpact cfg item * cfg.weightMarket +
      scoreAdjacency item * cfg.weightAdjacency +
      (scoreRisk cfg item).1 * cfg.weightRisk := rfl

/-- Claim C1: for every item and every configuration with non-negative
component weights summing to 1 and non-negative market weights, the five
component scores and the total score of `score_item` all lie in
[0, 100]. -/
theorem scoreItem_bounds_C1 (cfg : ScorerConfig) (item : TrendItem)
    (hv : 0 ≤ cfg.weightVelocity) (hr : 0 ≤ cfg.weightReach)
    (hm : 0 ≤ cfg.weightMarket) (ha : 0 ≤ cfg.weightAdjacency)
    (hk : 0 ≤ cfg.weightRisk)
    (hsum : cfg.weightVelocity + cfg.weightReach + cfg.weightMarket +
      cfg.weightAdjacency + cfg.weightRisk = 1)
    (hmw : ∀ p ∈ cfg.marketWeights, 0 ≤ p.2) :
    (0 ≤ (scoreItem cfg item).velocityScore ∧ (scoreItem cfg item).velocityScore ≤ 100) ∧
    (0 ≤ (scoreItem cfg item).reachScore ∧ (scoreItem cfg item).reachScore ≤ 100) ∧
    (0 ≤ (scoreItem cfg item).marketImpactScore ∧
      (scoreItem cfg item).marketImpactScore ≤ 100) ∧
    (0 ≤ (scoreItem cfg item).spotifyAdjacencyScore ∧
      (scoreItem cfg item).spotifyAdjacencyScore ≤ 100) ∧
    (0 ≤ (scoreItem cfg item).riskScore ∧ (scoreItem cfg item).riskScore ≤ 100) ∧
    (0 ≤ (scoreItem cfg item).totalScore ∧ (scoreItem cfg item).totalScore ≤ 100) := by
  have B₁ := scoreVelocity_bounds item
  have B₂ := scoreReach_bounds item
  have B₃ := scoreMarketImpact_bounds cfg item hmw
  have B₄ := scoreAdjacency_bounds item
  have B₅ := scoreRisk_bounds cfg item
  refine ⟨B₁, B₂, B₃, B₄, B₅, ?_, ?_⟩
  · rw [scoreItem_totalScore]
    have p₁ := mul_nonneg B₁.1 hv
    have p₂ := mul_nonneg B₂.1 hr
    have p₃ := mul_nonneg B₃.1 hm
    have p₄ := mul_nonneg B₄.1 ha
    have p₅ := mul_nonneg B₅.1 hk
    linarith
  · rw [scoreItem_totalScore]
    have q₁ := mul_le_mul_of_nonneg_right B₁.2 hv
    have q₂ := mul_le_mul_of_nonneg_right B₂.2 hr
    have q₃ := mul_le_mul_of_nonneg_right B₃.2 hm
    have q₄ := mul_le_mul_of_nonneg_right B₄.2 ha
    have q₅ := mul_le_mul_of_nonneg_right B₅.2 hk
    linarith

/-- The extreme item of the claim's clamp test: `volume=10^9`,
`velocity=-5`. -/
def extremeItem : TrendItem :=
  { source := "google_trends".toList, title := "extreme".toList,
    volume := 1000000000, velocity := -5 }

/-- Witness for C1 at the default configuration (weights
0.25/0.20/0.20/0.20/0.15) and the extreme item. -/
theorem scoreItem_bounds_C1_witness :
    (0 ≤ (scoreItem {} extremeItem).velocityScore ∧
      (scoreItem {} extremeItem).velocityScore ≤ 100) ∧
    (0 ≤ (scoreItem {} extremeItem).reachScore ∧
      (scoreItem {} extremeItem).reachScore ≤ 100) ∧
    (0 ≤ (scoreItem {} extremeItem).marketImpactScore ∧
      (scoreItem {} extremeItem).marketImpactScore ≤ 100) ∧
    (0 ≤ (scoreItem {} extremeItem).spotifyAdjacencyScore ∧
      (scoreItem {} extremeItem).spotifyAdjacencyScore ≤ 100) ∧
    (0 ≤ (scoreItem {} extremeItem).riskScore ∧
      (scoreItem {} extremeItem).riskScore ≤ 100) ∧
    (0 ≤ (scoreItem {} extremeItem).totalScore ∧
      (scoreItem {} extremeItem).totalScore ≤ 100) :=
  scoreItem_bounds_C1 {} extremeItem
    ((by norm_num : (0:ℚ) ≤ 1/4)) ((by norm_num : (0:ℚ) ≤ 1/5))
    ((by norm_num : (0:ℚ) ≤ 1/5)) ((by norm_num : (0:ℚ) ≤ 1/5))
    ((by norm_num : (0:ℚ) ≤ 3/20))
    ((by norm_num : (1:ℚ)/4 + 1/5 + 1/5 + 1/5 + 3/20 = 1))
    (by simp)

/-! ### Text-normalisation lemmas for C6/C10

`_compute_content_hash` hashes `title.lower().strip()` of the *normalised*
title, while claims C6/C10 speak about the raw titles; the lemmas below
show the hash key depends only on `strip(lower(title))`. -/

/-- Lowering a character does not change whether it is whitespace. -/
theorem isWs_pyToLower (c : Char) : isWsChar (pyToLower c) = isWsChar c := by
  unfold pyToLower
  cases hf : casePairs.find? (fun p => p.1 = c) with
  | none => rfl
  | some p =>
    have hp : p ∈ casePairs := List.mem_of_find?_eq_some hf
    have hc : p.1 = c := by simpa using List.find?_some hf
    subst hc
    fin_cases hp <;> rfl

/-- Lowering a character does not change whether it is ASCII. -/
theorem isAscii_pyToLower (c : Char) : isAsciiChar (pyToLower c) = isAsciiChar c := by
  unfold pyToLower
  cases hf : casePairs.find? (fun p => p.1 = c) with
  | none => rfl
  | some p =>
    have hp : p ∈ casePairs := List.mem_of_find?_eq_some hf
    have hc : p.1 = c := by simpa using List.find?_some hf
    subst hc
    fin_cases hp <;> rfl

/-- A space is already lower-case. -/
theorem pyToLower_space : pyToLower ' ' = ' ' := by decide

/-- `lower` distributes over concatenation. -/
theorem lowerP_append (s t : PyStr) : lowerP (s ++ t) = lowerP s ++ lowerP t :=
  List.map_append pyToLower s t

/-- `lower` commutes with dropping leading whitespace. -/
theorem dropWhile_ws_lowerP (s : PyStr) :
    List.dropWhile isWsChar (lowerP s) = lowerP (List.dropWhile isWsChar s) := by
  unfold lowerP
  rw [List.dropWhile_map]
  have : (isWsChar ∘ pyToLower) = isWsChar := funext fun c => isWs_pyToLower c
  rw [this]

/-- `lower` commutes with `lstrip`. -/
theorem lowerP_stripLeftP (s : PyStr) : stripLeftP (lowerP s) = lowerP (stripLeftP s) :=
  dropWhile_ws_lowerP s

/-- `lower` commutes with `reverse`. -/
theorem lowerP_reverse (s : PyStr) : lowerP s.reverse = (lowerP s).reverse := by
  unfold lowerP; exact (List.map_reverse pyToLower s)

/-- `lower` commutes with `rstrip`. -/
theorem lowerP_stripRightP (s : PyStr) : stripRightP (lowerP s) = lowerP (stripRightP s) := by
  unfold stripRightP
  rw [← lowerP_reverse, dropWhile_ws_lowerP, lowerP_reverse]

/-- `lower` commutes with `strip`. -/
theorem lowerP_stripP (s : PyStr) : stripP (lowerP s) = lowerP (stripP s) := by
  unfold stripP
  rw [lowerP_stripLeftP, lowerP_stripRightP]

/-- `lower` commutes with the ASCII filter. -/
theorem lowerP_asciiFilterP (s : PyStr) :
    asciiFilterP (lowerP s) = lowerP (asciiFilterP s) := by
  unfold asciiFilterP lowerP
  rw [List.filter_map]
  have : (isAsciiChar ∘ pyToLower) = isAsciiChar := funext fun c => isAscii_pyToLower c
  rw [this]

/-- `lower` commutes with whitespace collapsing. -/
theorem lowerP_squeezeP : ∀ s : PyStr, squeezeP (lowerP s) = lowerP (squeezeP s)
  | [] => rfl
  | [c] => by
    cases h : isWsChar c with
    | true =>
      have h' : isWsChar (pyToLower c) = true := (isWs_pyToLower c).trans h
      simp [lowerP, squeezeP, h, h', pyToLower_space]
    | false =>
      have h' : isWsChar (pyToLower c) = false := (isWs_pyToLower c).trans h
      simp [lowerP, squeezeP, h, h']
  | c₁ :: c₂ :: rest => by
    have ih := lowerP_squeezeP (c₂ :: rest)
    cases h₁ : isWsChar c₁ with
    | true =>
      have h₁' : isWsChar (pyToLower c₁) = true := (isWs_pyToLower c₁).trans h₁
      cases h₂ : isWsChar c₂ with
      | true =>
        have h₂' : isWsChar (pyToLower c₂) = true := (isWs_pyToLower c₂).trans h₂
        simpa [lowerP, squeezeP, h₁, h₂, h₁', h₂', pyToLower_space] using ih
      | false =>
        have h₂' : isWsChar (pyToLower c₂) = false := (isWs_pyToLower c₂).trans h₂
        simpa [lowerP, squeezeP, h₁, h₂, h₁', h₂', pyToLower_space] using ih
    | false =>
      have h₁' : isWsChar (pyToLower c₁) = false := (isWs_pyToLower c₁).trans h₁
      simpa [lowerP, squeezeP, h₁, h₁'] using ih

/-- All-whitespace strings. -/
def wsOnly (l : PyStr) : Prop := ∀ c ∈ l, isWsChar c = true

/-- A non-empty all-whitespace string collapses to a single space. -/
theorem squeezeP_wsOnly : ∀ l : PyStr, l ≠ [] → wsOnly l → squeezeP l = [' ']
  | [], h, _ => absurd rfl h
  | [c], _, hws => by simp [squeezeP, hws c (List.mem_singleton.mpr rfl)]
  | c₁ :: c₂ :: rest, _, hws => by
    have h₁ : isWsChar c₁ = true := hws c₁ (by simp)
    have h₂ : isWsChar c₂ = true := hws c₂ (by simp)
    have := squeezeP_wsOnly (c₂ :: rest) (by simp)
      (fun c hc => hws c (List.mem_cons_of_mem c₁ hc))
    simpa [squeezeP, h₁, h₂] using this

/-- ASCII-filtering keeps a leading space. -/
theorem asciiFilterP_cons_space (x : PyStr) :
    asciiFilterP (' ' :: x) = ' ' :: asciiFilterP x := by
  unfold asciiFilterP
  rw [List.filter_cons_of_pos (by decide)]

/-- `strip` ignores a leading space. -/
theorem stripP_cons_space (x : PyStr) : stripP (' ' :: x) = stripP x := by
  unfold stripP stripLeftP
  rw [List.dropWhile_cons_of_pos (by decide)]

/-- `rstrip` ignores a trailing space. -/
theorem stripRightP_append_space (x : PyStr) : stripRightP (x ++ [' ']) = stripRightP x := by
  unfold stripRightP
  rw [List.reverse_append]
  simp only [List.reverse_cons, List.reverse_nil, List.nil_append, List.singleton_append]
  rw [List.dropWhile_cons_of_pos (by decide)]

/-- `strip` ignores a trailing space. -/
theorem stripP_append_space (x : PyStr) : stripP (x ++ [' ']) = stripP x := by
  unfold stripP stripLeftP
  rw [List.dropWhile_append]
  by_cases h : (List.dropWhile isWsChar x).isEmpty
  · rw [if_pos h, List.isEmpty_iff.mp h]
    rfl
  · rw [if_neg h]
    exact stripRightP_append_space _

/-- Prepending whitespace does not change `_normalize_text`'s result. -/
theorem normTextP_ws_prepend : ∀ (pre v : PyStr), wsOnly pre →
    normTextP (pre ++ v) = normTextP v
  | [], _, _ => rfl
  | [c], v, hws => by
    have hc : isWsChar c = true := hws c (by simp)
    cases v with
    | nil =>
      show normTextP [c] = normTextP []
      unfold normTextP
      simp [squeezeP, hc, asciiFilterP_cons_space, stripP_cons_space]
    | cons d vs =>
      show normTextP (c :: d :: vs) = normTextP (d :: vs)
      cases hd : isWsChar d with
      | true =>
        unfold normTextP
        have hs : squeezeP (c :: d :: vs) = squeezeP (d :: vs) := by
          simp [squeezeP, hc, hd]
        rw [hs]
      | false =>
        have hs : squeezeP (c :: d :: vs) = ' ' :: squeezeP (d :: vs) := by
          simp [squeezeP, hc, hd]
        unfold normTextP
        rw [hs, asciiFilterP_cons_space, stripP_cons_space]
  | c :: e :: pre', v, hws => by
    have hc : isWsChar c = true := hws c (by simp)
    have he : isWsChar e = true := hws e (by simp)
    have ih := normTextP_ws_prepend (e :: pre') v
      (fun x hx => hws x (List.mem_cons_of_mem c hx))
    show normTextP (c :: e :: (pre' ++ v)) = normTextP v
    have hs : squeezeP (c :: e :: (pre' ++ v)) = squeezeP (e :: (pre' ++ v)) := by
      simp [squeezeP, hc, he]
    unfold normTextP at ih ⊢
    rw [hs]
    exact ih

/-- Appending whitespace to a string that does not end in whitespace
adds exactly one space to the collapsed form. -/
theorem squeezeP_append_wsOnly : ∀ (v post : PyStr),
    (∀ d, v.getLast? = some d → isWsChar d = false) → post ≠ [] → wsOnly post →
    squeezeP (v ++ post) = squeezeP v ++ [' ']
  | [], post, _, hne, hws => by
    rw [List.nil_append, squeezeP_wsOnly post hne hws]
    rfl
  | [c], post, hlast, hne, hws => by
    have hc : isWsChar c = false := hlast c rfl
    cases post with
    | nil => exact absurd rfl hne
    | cons d ps =>
      have : squeezeP (c :: d :: ps) = c :: squeezeP (d :: ps) := by
        simp [squeezeP, hc]
      show squeezeP (c :: d :: ps) = squeezeP [c] ++ [' ']
      rw [this, squeezeP_wsOnly (d :: ps) (by simp) hws]
      simp [squeezeP, hc]
  | c :: e :: w, post, hlast, hne, hws => by
    have hlast' : ∀ d, (e :: w).getLast? = some d → isWsChar d = false := by
      intro d hd
      apply hlast d
      rw [List.getLast?_cons_cons]
      exact hd
    have ih := squeezeP_append_wsOnly (e :: w) post hlast' hne hws
    show squeezeP (c :: e :: (w ++ post)) = squeezeP (c :: e :: w) ++ [' ']
    cases hc : isWsChar c with
    | true =>
      cases hd : isWsChar e with
      | true =>
        have l1 : squeezeP (c :: e :: (w ++ post)) = squeezeP (e :: (w ++ post)) := by
          simp [squeezeP, hc, hd]
        have l2 : squeezeP (c :: e :: w) = squeezeP (e :: w) := by
          simp [squeezeP, hc, hd]
        rw [l1, l2]
        exact ih
      | false =>
        have l1 : squeezeP (c :: e :: (w ++ post)) = ' ' :: squeezeP (e :: (w ++ post)) := by
          simp [squeezeP, hc, hd]
        have l2 : squeezeP (c :: e :: w) = ' ' :: squeezeP (e :: w) := by
          simp [squeezeP, hc, hd]
        rw [l1, l2]
        simpa using ih
    | false =>
      have l1 : squeezeP (c :: e :: (w ++ post)) = c :: squeezeP (e :: (w ++ post)) := by
        simp [squeezeP, hc]
      have l2 : squeezeP (c :: e :: w) = c :: squeezeP (e :: w) := by
        simp [squeezeP, hc]
      rw [l1, l2]
      simpa using ih

/-- The first character surviving a whitespace-drop is not whitespace. -/
theorem head?_dropWhile_ws : ∀ (l : PyStr) (c : Char),
    (l.dropWhile isWsChar).head? = some c → isWsChar c = false
  | [], c, h => by simp at h
  | a :: l, c, h => by
    cases ha : isWsChar a with
    | true =>
      rw [List.dropWhile_cons_of_pos ha] at h
      exact head?_dropWhile_ws l c h
    | false =>
      rw [List.dropWhile_cons_of_neg (by simp [ha])] at h
      simp at h
      rwa [← h]

/-- The last character of an `rstrip`ped string is not whitespace. -/
theorem getLast?_stripRightP (v : PyStr) (d : Char)
    (h : (stripRightP v).getLast? = some d) : isWsChar d = false := by
  unfold stripRightP at h
  rw [List.getLast?_reverse] at h
  exact head?_dropWhile_ws v.reverse d h

/-- A string whose head is not whitespace is `lstrip`-fixed. -/
theorem stripLeftP_eq_self (x : PyStr)
    (h : ∀ c, x.head? = some c → isWsChar c = false) : stripLeftP x = x := by
  cases x with
  | nil => rfl
  | cons a l =>
    unfold stripLeftP
    rw [List.dropWhile_cons_of_neg (by simp [h a rfl])]

/-- A string whose last character is not whitespace is `rstrip`-fixed. -/
theorem stripRightP_eq_self (x : PyStr)
    (h : ∀ d, x.getLast? = some d → isWsChar d = false) : stripRightP x = x := by
  unfold stripRightP
  cases hrev : x.reverse with
  | nil =>
    rw [List.dropWhile_nil]
    rw [← hrev, List.reverse_reverse]
  | cons a t =>
    have ha : x.getLast? = some a := by
      rw [← List.head?_reverse, hrev]; rfl
    rw [List.dropWhile_cons_of_neg (by simp [h a ha])]
    rw [← hrev, List.reverse_reverse]

/-- `rstrip` produces a prefix. -/
theorem stripRightP_isPre (y : PyStr) : stripRightP y <+: y := by
  have h := List.dropWhile_suffix (l := y.reverse) isWsChar
  have := List.reverse_prefix.mpr h
  rwa [List.reverse_reverse] at this

/-- A non-empty prefix has the same head. -/
theorem head?_of_isPre {x y : PyStr} (h : x <+: y) (hne : x ≠ []) :
    y.head? = x.head? := by
  obtain ⟨t, rfl⟩ := h
  cases x with
  | nil => exact absurd rfl hne
  | cons a l => rfl

/-- The head of a `strip`ped string is not whitespace. -/
theorem head?_stripP_ws (s : PyStr) (c : Char) (h : (stripP s).head? = some c) :
    isWsChar c = false := by
  have hpre : stripP s <+: stripLeftP s := stripRightP_isPre _
  have hne : stripP s ≠ [] := by
    intro he
    rw [he] at h
    simp at h
  have : (stripLeftP s).head? = some c := by
    rw [head?_of_isPre hpre hne]
    exact h
  exact head?_dropWhile_ws s c this

/-- `strip` is idempotent. -/
theorem stripP_idem (s : PyStr) : stripP (stripP s) = stripP s := by
  have h1 : stripLeftP (stripP s) = stripP s :=
    stripLeftP_eq_self _ (fun c hc => head?_stripP_ws s c hc)
  have h2 : stripRightP (stripP s) = stripP s :=
    stripRightP_eq_self _ (fun d hd => getLast?_stripRightP (stripLeftP s) d hd)
  show stripRightP (stripLeftP (stripP s)) = stripP s
  rw [h1, h2]

/-- Every string splits into its `rstrip` and an all-whitespace tail. -/
theorem stripRightP_decomposition (v : PyStr) :
    ∃ post, v = stripRightP v ++ post ∧ wsOnly post := by
  refine ⟨(v.reverse.takeWhile isWsChar).reverse, ?_, ?_⟩
  · conv_lhs => rw [← List.reverse_reverse v,
      ← List.takeWhile_append_dropWhile isWsChar v.reverse]
    rw [List.reverse_append]
    rfl
  · intro c hc
    rw [List.mem_reverse] at hc
    exact List.mem_takeWhile_imp hc

/-- Stripping first does not change `_normalize_text`'s result: the
normalised text depends only on the stripped input. -/
theorem normTextP_stripP (u : PyStr) : normTextP u = normTextP (stripP u) := by
  have h1 : normTextP u = normTextP (stripLeftP u) := by
    conv_lhs => rw [← List.takeWhile_append_dropWhile isWsChar u]
    exact normTextP_ws_prepend _ _ (fun c hc => List.mem_takeWhile_imp hc)
  obtain ⟨post, hv, hpost⟩ := stripRightP_decomposition (stripLeftP u)
  by_cases hp : post = []
  · rw [h1]
    conv_lhs => rw [hv, hp, List.append_nil]
    rfl
  · have hlast : ∀ d, (stripRightP (stripLeftP u)).getLast? = some d → isWsChar d = false :=
      fun d hd => getLast?_stripRightP _ d hd
    have hs := squeezeP_append_wsOnly (stripRightP (stripLeftP u)) post hlast hp hpost
    rw [h1]
    conv_lhs => rw [hv]
    show normTextP (stripP u ++ post) = normTextP (stripP u)
    unfold normTextP
    rw [show stripP u ++ post = stripRightP (stripLeftP u) ++ post from rfl, hs]
    unfold asciiFilterP
    rw [List.filter_append]
    have : List.filter isAsciiChar [' '] = [' '] := by decide
    rw [this, stripP_append_space]
    rfl

/-- `lower` commutes with `_normalize_text`. -/
theorem lowerP_normTextP (t : PyStr) : lowerP (normTextP t) = normTextP (lowerP t) := by
  unfold normTextP
  rw [lowerP_squeezeP, lowerP_asciiFilterP, lowerP_stripP]

/-- The lower-cased, stripped *normalised* title — the content-hash
ingredient — depends only on the lower-cased, stripped *raw* title. -/
theorem titleKey_eq (t : PyStr) :
    stripP (lowerP (if t.isEmpty then t else normTextP t)) =
      normTextP (stripP (lowerP t)) := by
  by_cases ht : t.isEmpty
  · rw [if_pos ht, List.isEmpty_iff.mp ht]
    rfl
  · rw [if_neg ht]
    rw [show stripP (lowerP (normTextP t)) = stripP (normTextP (lowerP t)) by
      rw [lowerP_normTextP]]
    have hidem : stripP (normTextP (lowerP t)) = normTextP (lowerP t) := by
      unfold normTextP
      exact stripP_idem _
    rw [hidem]
    exact normTextP_stripP (lowerP t)

/-! ### Dedup-state lemmas for `clean_batch` -/

/-- The URL dedup key of an item: `source_url.lower().strip()` for a
truthy `source_url`, nothing otherwise. -/
def urlKeyOf (it : TrendItem) : Option PyStr :=
  match it.sourceUrl with
  | none => none
  | some u => if u.isEmpty then none else some (stripP (lowerP u))

/-- The content-hash dedup key `clean_batch` registers for an item (the
hash is computed on the normalised item). -/
def hashKeyOf (it : TrendItem) : PyStr := contentHashKey (normalizeItem it)

/-- Normalisation does not touch `source_url`. -/
theorem sourceUrl_normalizeItem (it : TrendItem) :
    (normalizeItem it).sourceUrl = it.sourceUrl := rfl

/-- Normalisation does not touch `source`. -/
theorem source_normalizeItem (it : TrendItem) :
    (normalizeItem it).source = it.source := rfl

/-- The content-hash key of the normalised item, expressed through the
raw title. -/
theorem hashKeyOf_eq (it : TrendItem) :
    hashKeyOf it = it.source ++ ':' :: normTextP (stripP (lowerP it.title)) := by
  unfold hashKeyOf contentHashKey
  rw [source_normalizeItem]
  have : (normalizeItem it).title = if it.title.isEmpty then it.title else normTextP it.title := rfl
  rw [this, titleKey_eq]

/-- `urlKeyOf` only looks at `source_url`, which normalisation keeps. -/
theorem urlKeyOf_normalizeItem (it : TrendItem) :
    urlKeyOf (normalizeItem it) = urlKeyOf it := rfl

/-- `hashCheck` never changes the URL set. -/
theorem hashCheck_urls (st : CleanState) (it : TrendItem) :
    (hashCheck st it).2.seenUrls = st.seenUrls := by
  unfold hashCheck
  split_ifs <;> rfl

/-- `hashCheck` preserves hash-set membership. -/
theorem hashCheck_hashes_mono (st : CleanState) (it : TrendItem) (k : PyStr)
    (h : k ∈ st.seenHashes) : k ∈ (hashCheck st it).2.seenHashes := by
  unfold hashCheck
  split_ifs <;> simp [h]

/-- After `hashCheck`, the item's content hash is in the hash set. -/
theorem hashCheck_key_mem (st : CleanState) (it : TrendItem) :
    contentHashKey it ∈ (hashCheck st it).2.seenHashes := by
  unfold hashCheck
  split_ifs with h
  · exact h
  · exact List.mem_cons_self _ _

/-- A content hash already seen makes `hashCheck` report a duplicate. -/
theorem hashCheck_dup_of_mem (st : CleanState) (it : TrendItem)
    (h : contentHashKey it ∈ st.seenHashes) : (hashCheck st it).1 = true := by
  unfold hashCheck
  rw [if_pos h]

/-- `_is_duplicate` preserves URL-set membership. -/
theorem isDup_urls_mono (st : CleanState) (it : TrendItem) (k : PyStr)
    (h : k ∈ st.seenUrls) : k ∈ (isDuplicateStep st it).2.seenUrls := by
  unfold isDuplicateStep
  cases it.sourceUrl with
  | none => rw [hashCheck_urls]; exact h
  | some u =>
    dsimp only
    split_ifs with h1 h2
    · rw [hashCheck_urls]; exact h
    · exact h
    · rw [hashCheck_urls]
      exact List.mem_cons_of_mem _ h

/-- `_is_duplicate` preserves hash-set membership. -/
theorem isDup_hashes_mono (st : CleanState) (it : TrendItem) (k : PyStr)
    (h : k ∈ st.seenHashes) : k ∈ (isDuplicateStep st it).2.seenHashes := by
  unfold isDuplicateStep
  cases it.sourceUrl with
  | none => exact hashCheck_hashes_mono _ _ _ h
  | some u =>
    dsimp only
    split_ifs with h1 h2
    · exact hashCheck_hashes_mono _ _ _ h
    · exact h
    · exact hashCheck_hashes_mono _ _ _ h

/-- After `_is_duplicate` on an item with a truthy URL, the normalised
URL is in the URL set (whatever the verdict). -/
theorem isDup_url_mem (st : CleanState) (it : TrendItem) (k : PyStr)
    (hk : urlKeyOf it = some k) : k ∈ (isDuplicateStep st it).2.seenUrls := by
  unfold urlKeyOf at hk
  unfold isDuplicateStep
  cases hu : it.sourceUrl with
  | none => rw [hu] at hk; exact absurd hk (by simp)
  | some u =>
    rw [hu] at hk
    dsimp only at hk ⊢
    by_cases he : u.isEmpty
    · rw [if_pos he] at hk
      exact absurd hk (by simp)
    · rw [if_neg he] at hk
      have hkk : k = stripP (lowerP u) := by
        have := Option.some.inj hk
        exact this.symm
      subst hkk
      rw [if_neg he]
      split_ifs with h2
      · exact h2
      · rw [hashCheck_urls]
        exact List.mem_cons_self _ _

/-- If `_is_duplicate` says "not a duplicate", the item's content hash
was added to the hash set. -/
theorem isDup_hash_mem (st : CleanState) (it : TrendItem)
    (h : (isDuplicateStep st it).1 = false) :
    contentHashKey it ∈ (isDuplicateStep st it).2.seenHashes := by
  unfold isDuplicateStep at h ⊢
  cases hu : it.sourceUrl with
  | none => exact hashCheck_key_mem _ _
  | some u =>
    rw [hu] at h
    dsimp only at h ⊢
    split_ifs with h1 h2
    · exact hashCheck_key_mem _ _
    · rw [if_neg h1, if_pos h2] at h
      simp at h
    · exact hashCheck_key_mem _ _

/-- A seen truthy URL makes `_is_duplicate` report a duplicate. -/
theorem isDup_true_of_url_mem (st : CleanState) (it : TrendItem) (k : PyStr)
    (hk : urlKeyOf it = some k) (hmem : k ∈ st.seenUrls) :
    (isDuplicateStep st it).1 = true := by
  unfold urlKeyOf at hk
  unfold isDuplicateStep
  cases hu : it.sourceUrl with
  | none => rw [hu] at hk; exact absurd hk (by simp)
  | some u =>
    rw [hu] at hk
    dsimp only at hk ⊢
    by_cases he : u.isEmpty
    · rw [if_pos he] at hk
      exact absurd hk (by simp)
    · rw [if_neg he] at hk
      have hkk : k = stripP (lowerP u) := (Option.some.inj hk).symm
      subst hkk
      rw [if_neg he, if_pos hmem]

/-- A seen content hash makes `_is_duplicate` report a duplicate. -/
theorem isDup_true_of_hash_mem (st : CleanState) (it : TrendItem)
    (hmem : contentHashKey it ∈ st.seenHashes) :
    (isDuplicateStep st it).1 = true := by
  unfold isDuplicateStep
  cases it.sourceUrl with
  | none => exact hashCheck_dup_of_mem _ _ hmem
  | some u =>
    dsimp only
    split_ifs with h1 h2
    · exact hashCheck_dup_of_mem _ _ hmem
    · rfl
    · exact hashCheck_dup_of_mem _ _ hmem

/-- The state a clean step leaves behind is `_is_duplicate`'s state. -/
theorem cleanStep_state (st : CleanState) (it : TrendItem) :
    (cleanStep st it).1 = (isDuplicateStep st (normalizeItem it)).2 := by
  unfold cleanStep
  rcases hd : isDuplicateStep st (normalizeItem it) with ⟨b, st₂⟩
  cases b
  · split_ifs <;> rfl
  · rfl

/-- A clean step reports `duplicate` exactly when `_is_duplicate` said
so. -/
theorem cleanStep_dup_iff (st : CleanState) (it : TrendItem) :
    (cleanStep st it).2.2 = CleanDispo.duplicate ↔
      (isDuplicateStep st (normalizeItem it)).1 = true := by
  unfold cleanStep
  rcases hd : isDuplicateStep st (normalizeItem it) with ⟨b, st₂⟩
  cases b
  · split_ifs <;> simp
  · simp

/-- A clean step preserves URL-set membership. -/
theorem cleanStep_urls_mono (st : CleanState) (it : TrendItem) (k : PyStr)
    (h : k ∈ st.seenUrls) : k ∈ (cleanStep st it).1.seenUrls := by
  rw [cleanStep_state]
  exact isDup_urls_mono _ _ _ h

/-- A clean step preserves hash-set membership. -/
theorem cleanStep_hashes_mono (st : CleanState) (it : TrendItem) (k : PyStr)
    (h : k ∈ st.seenHashes) : k ∈ (cleanStep st it).1.seenHashes := by
  rw [cleanStep_state]
  exact isDup_hashes_mono _ _ _ h

/-- After a clean step on an item with a truthy URL, the normalised URL
is in the URL set. -/
theorem cleanStep_url_mem (st : CleanState) (it : TrendItem) (k : PyStr)
    (hk : urlKeyOf it = some k) : k ∈ (cleanStep st it).1.seenUrls := by
  rw [cleanStep_state]
  exact isDup_url_mem _ _ _ (by rw [urlKeyOf_normalizeItem]; exact hk)

/-- After a clean step that did not report `duplicate`, the item's
content hash is in the hash set. -/
theorem cleanStep_hash_mem (st : CleanState) (it : TrendItem)
    (h : (cleanStep st it).2.2 ≠ CleanDispo.duplicate) :
    hashKeyOf it ∈ (cleanStep st it).1.seenHashes := by
  rw [cleanStep_state]
  have hf : (isDuplicateStep st (normalizeItem it)).1 = false := by
    cases hb : (isDuplicateStep st (normalizeItem it)).1
    · rfl
    · exact absurd ((cleanStep_dup_iff st it).mpr hb) h
  exact isDup_hash_mem _ _ hf

/-- A clean step on an item whose truthy URL key is already seen reports
`duplicate`. -/
theorem cleanStep_dup_of_url (st : CleanState) (it : TrendItem) (k : PyStr)
    (hk : urlKeyOf it = some k) (hmem : k ∈ st.seenUrls) :
    (cleanStep st it).2.2 = CleanDispo.duplicate :=
  (cleanStep_dup_iff st it).mpr
    (isDup_true_of_url_mem _ _ _ (by rw [urlKeyOf_normalizeItem]; exact hk) hmem)

/-- A clean step on an item whose content hash is already seen reports
`duplicate`. -/
theorem cleanStep_dup_of_hash (st : CleanState) (it : TrendItem)
    (hmem : hashKeyOf it ∈ st.seenHashes) :
    (cleanStep st it).2.2 = CleanDispo.duplicate :=
  (cleanStep_dup_iff st it).mpr (isDup_true_of_hash_mem _ _ hmem)

/-- Once a URL key is in the state, any later item carrying that truthy
key is reported `duplicate`. -/
theorem later_dup_url (items : List TrendItem) (st : CleanState) (j : ℕ)
    (itj : TrendItem) (k : PyStr) (hj : items[j]? = some itj)
    (hk : urlKeyOf itj = some k) (hst : k ∈ st.seenUrls) :
    ((cleanBatchAux st items)[j]?).map (fun p => p.2) = some CleanDispo.duplicate := by
  induction items generalizing st j with
  | nil => simp at hj
  | cons it rest ih =>
    cases j with
    | zero =>
      rw [List.getElem?_cons_zero] at hj
      have hit : it = itj := Option.some.inj hj
      simp only [cleanBatchAux, List.getElem?_cons_zero, Option.map_some']
      rw [hit, cleanStep_dup_of_url st itj k hk hst]
    | succ j' =>
      rw [List.getElem?_cons_succ] at hj
      simp only [cleanBatchAux, List.getElem?_cons_succ]
      exact ih _ _ hj (cleanStep_urls_mono _ _ _ hst)

/-- Once a content hash is in the state, any later item with that hash
is reported `duplicate`. -/
theorem later_dup_hash (items : List TrendItem) (st : CleanState) (j : ℕ)
    (itj : TrendItem) (hj : items[j]? = some itj)
    (hst : hashKeyOf itj ∈ st.seenHashes) :
    ((cleanBatchAux st items)[j]?).map (fun p => p.2) = some CleanDispo.duplicate := by
  induction items generalizing st j with
  | nil => simp at hj
  | cons it rest ih =>
    cases j with
    | zero =>
      rw [List.getElem?_cons_zero] at hj
      have hit : it = itj := Option.some.inj hj
      simp only [cleanBatchAux, List.getElem?_cons_zero, Option.map_some']
      rw [hit, cleanStep_dup_of_hash st itj hst]
    | succ j' =>
      rw [List.getElem?_cons_succ] at hj
      simp only [cleanBatchAux, List.getElem?_cons_succ]
      exact ih _ _ hj (cleanStep_hashes_mono _ _ _ hst)

/-- Two batch positions with the same truthy URL key: the later one is
reported `duplicate`. -/
theorem pair_url_dup (items : List TrendItem) (st : CleanState) (i j : ℕ)
    (iti itj : TrendItem) (k : PyStr) (hij : i < j)
    (hi : items[i]? = some iti) (hj : items[j]? = some itj)
    (hki : urlKeyOf iti = some k) (hkj : urlKeyOf itj = some k) :
    ((cleanBatchAux st items)[j]?).map (fun p => p.2) = some CleanDispo.duplicate := by
  induction items generalizing st i j with
  | nil => simp at hi
  | cons it rest ih =>
    cases i with
    | zero =>
      rw [List.getElem?_cons_zero] at hi
      have hit : it = iti := Option.some.inj hi
      obtain ⟨j', rfl⟩ : ∃ j', j = j' + 1 := ⟨j - 1, by omega⟩
      rw [List.getElem?_cons_succ] at hj
      simp only [cleanBatchAux, List.getElem?_cons_succ, hit]
      exact later_dup_url rest _ j' itj k hj hkj
        (cleanStep_url_mem st iti k hki)
    | succ i' =>
      obtain ⟨j', rfl⟩ : ∃ j', j = j' + 1 := ⟨j - 1, by omega⟩
      rw [List.getElem?_cons_succ] at hi hj
      simp only [cleanBatchAux, List.getElem?_cons_succ]
      exact ih _ i' j' (by omega) hi hj

/-- Two batch positions with the same content hash: if the earlier one
was not itself dropped as a duplicate (so its hash was registered), the
later one is reported `duplicate`. -/
theorem pair_hash_dup (items : List TrendItem) (st : CleanState) (i j : ℕ)
    (iti itj : TrendItem) (hij : i < j)
    (hi : items[i]? = some iti) (hj : items[j]? = some itj)
    (hkey : hashKeyOf iti = hashKeyOf itj)
    (hnd : ((cleanBatchAux st items)[i]?).map (fun p => p.2) ≠ some CleanDispo.duplicate) :
    ((cleanBatchAux st items)[j]?).map (fun p => p.2) = some CleanDispo.duplicate := by
  induction items generalizing st i j with
  | nil => simp at hi
  | cons it rest ih =>
    cases i with
    | zero =>
      rw [List.getElem?_cons_zero] at hi
      have hit : it = iti := Option.some.inj hi
      obtain ⟨j', rfl⟩ : ∃ j', j = j' + 1 := ⟨j - 1, by omega⟩
      rw [List.getElem?_cons_succ] at hj
      simp only [cleanBatchAux, List.getElem?_cons_zero, Option.map_some', hit] at hnd
      have hdisp : (cleanStep st iti).2.2 ≠ CleanDispo.duplicate := by
        intro hdup
        exact hnd (by rw [hdup])
      have hmem : hashKeyOf iti ∈ (cleanStep st iti).1.seenHashes :=
        cleanStep_hash_mem st iti hdisp
      simp only [cleanBatchAux, List.getElem?_cons_succ, hit]
      exact later_dup_hash rest _ j' itj hj (hkey ▸ hmem)
    | succ i' =>
      obtain ⟨j', rfl⟩ : ∃ j', j = j' + 1 := ⟨j - 1, by omega⟩
      rw [List.getElem?_cons_succ] at hi hj
      simp only [cleanBatchAux, List.getElem?_cons_succ] at hnd ⊢
      exact ih _ i' j' (by omega) hi hj hnd

/-- The content hash key only depends on the source and the lower-cased,
stripped raw title. -/
theorem hashKeyOf_congr (iti itj : TrendItem) (hsrc : iti.source = itj.source)
    (htitle : stripP (lowerP iti.title) = stripP (lowerP itj.title)) :
    hashKeyOf iti = hashKeyOf itj := by
  rw [hashKeyOf_eq, hashKeyOf_eq, hsrc, htitle]

/-! ### C6 — exact dedup (corrected) -/

/-- An item with an empty-string URL (Python-falsy, so the URL dedup is
skipped for it). -/
def urlCEitemA : TrendItem :=
  { source := "a".toList, sourceUrl := some [], title := "abc".toList }

/-- A second item with an empty-string URL and a different content
hash. -/
def urlCEitemB : TrendItem :=
  { source := "b".toList, sourceUrl := some [], title := "defg".toList }

/-- Counterexample to C6 as stated: two items whose `source_url` values
(`""` and `""`) are equal after lowercasing and stripping, yet
`clean_batch` keeps *both* (`if item.source_url:` skips URL dedup for a
falsy URL, and their content hashes differ). -/
theorem cleanBatch_emptyUrl_CE_C6 :
    urlCEitemA.sourceUrl = some [] ∧ urlCEitemB.sourceUrl = some [] ∧
    stripP (lowerP []) = stripP (lowerP []) ∧
    cleanBatch [urlCEitemA, urlCEitemB] =
      [normalizeItem urlCEitemA, normalizeItem urlCEitemB] ∧
    normalizeItem urlCEitemA ≠ normalizeItem urlCEitemB := by
  refine ⟨rfl, rfl, rfl, by decide, by decide⟩

/-- Claim C6 as amended (the URL clause now requires both URLs to be
non-empty, i.e. Python-truthy): if two batch positions carry non-empty
`source_url` values equal after `lower().strip()`, or the same `source`
and the same `lower().strip()` title, then `clean_batch` keeps at most
one of them (`kept` dispositions are exactly the items of
`cleanBatch`'s output). -/
theorem cleanBatch_dedup_C6 (items : List TrendItem) (i j : ℕ)
    (iti itj : TrendItem) (hij : i < j)
    (hi : items[i]? = some iti) (hj : items[j]? = some itj) :
    (∀ u₁ u₂, iti.sourceUrl = some u₁ → u₁ ≠ [] →
        itj.sourceUrl = some u₂ → u₂ ≠ [] →
        stripP (lowerP u₁) = stripP (lowerP u₂) →
        ¬(dispoAt items i = some CleanDispo.kept ∧
          dispoAt items j = some CleanDispo.kept)) ∧
    (iti.source = itj.source →
        stripP (lowerP iti.title) = stripP (lowerP itj.title) →
        ¬(dispoAt items i = some CleanDispo.kept ∧
          dispoAt items j = some CleanDispo.kept)) := by
  constructor
  · intro u₁ u₂ hu₁ hne₁ hu₂ hne₂ hkey hkept
    have hk₁ : urlKeyOf iti = some (stripP (lowerP u₁)) := by
      unfold urlKeyOf
      rw [hu₁]
      dsimp only
      rw [if_neg (by simpa [List.isEmpty_iff] using hne₁)]
    have hk₂ : urlKeyOf itj = some (stripP (lowerP u₁)) := by
      unfold urlKeyOf
      rw [hu₂]
      dsimp only
      rw [if_neg (by simpa [List.isEmpty_iff] using hne₂), hkey]
    have hdup := pair_url_dup items {} i j iti itj (stripP (lowerP u₁)) hij hi hj hk₁ hk₂
    have : dispoAt items j = some CleanDispo.duplicate := hdup
    rw [hkept.2] at this
    exact absurd (Option.some.inj this) (by decide)
  · intro hsrc htitle hkept
    have hnd : dispoAt items i ≠ some CleanDispo.duplicate := by
      rw [hkept.1]
      intro h
      exact absurd (Option.some.inj h) (by decide)
    have hdup := pair_hash_dup items {} i j iti itj hij hi hj
      (hashKeyOf_congr iti itj hsrc htitle) hnd
    have : dispoAt items j = some CleanDispo.duplicate := hdup
    rw [hkept.2] at this
    exact absurd (Option.some.inj this) (by decide)

/-- Item with an upper-case variant of a URL. -/
def urlWitItemA : TrendItem :=
  { source := "news_rss".toList, sourceUrl := some "HTTP://X.COM/a ".toList,
    title := "first story".toList }

/-- Item with the lower-case variant of the same URL. -/
def urlWitItemB : TrendItem :=
  { source := "reddit".toList, sourceUrl := some "http://x.com/a".toList,
    title := "second story".toList }

/-- Witness for C6 at two items whose non-empty URLs agree after
`lower().strip()`. -/
theorem cleanBatch_dedup_C6_witness :
    ¬(dispoAt [urlWitItemA, urlWitItemB] 0 = some CleanDispo.kept ∧
      dispoAt [urlWitItemA, urlWitItemB] 1 = some CleanDispo.kept) :=
  (cleanBatch_dedup_C6 [urlWitItemA, urlWitItemB] 0 1 urlWitItemA urlWitItemB
    (by decide) rfl rfl).1
    "HTTP://X.COM/a ".toList "http://x.com/a".toList rfl (by decide) rfl (by decide)
    (by decide)

/-! ### C10 — dedup registration precedes the quality filter (corrected) -/

/-- An empty-URL item that fails the quality filter (2-character
title). -/
def qualCEitemA : TrendItem :=
  { source := "a".toList, sourceUrl := some [], title := "ab".toList }

/-- A later empty-URL item that passes the quality filter. -/
def qualCEitemB : TrendItem :=
  { source := "b".toList, sourceUrl := some [], title := "hello".toList }

/-- Counterexample to C10 as stated: the earlier item is dropped by the
quality filter and shares its (empty, Python-falsy) normalised URL with
the later item, yet the later item is *kept*, because `_is_duplicate`
never registers or checks a falsy `source_url`. -/
theorem cleanBatch_qualityDedup_emptyUrl_CE_C10 :
    dispoAt [qualCEitemA, qualCEitemB] 0 = some CleanDispo.lowQuality ∧
    qualCEitemA.sourceUrl = some [] ∧ qualCEitemB.sourceUrl = some [] ∧
    stripP (lowerP []) = stripP (lowerP []) ∧
    dispoAt [qualCEitemA, qualCEitemB] 1 = some CleanDispo.kept := by
  refine ⟨by decide, rfl, rfl, rfl, by decide⟩

/-- Claim C10 as amended (the URL clause now requires both URLs to be
non-empty, i.e. Python-truthy): dedup keys are registered before the
quality filter runs, so when an earlier item is dropped by the quality
filter, every later item sharing its non-empty normalised URL or its
content hash is dropped as a `duplicate` — even one that would itself
pass the quality filter. -/
theorem cleanBatch_qualityThenDup_C10 (items : List TrendItem) (i j : ℕ)
    (iti itj : TrendItem) (hij : i < j)
    (hi : items[i]? = some iti) (hj : items[j]? = some itj)
    (hq : dispoAt items i = some CleanDispo.lowQuality) :
    (∀ u₁ u₂, iti.sourceUrl = some u₁ → u₁ ≠ [] →
        itj.sourceUrl = some u₂ → u₂ ≠ [] →
        stripP (lowerP u₁) = stripP (lowerP u₂) →
        dispoAt items j = some CleanDispo.duplicate) ∧
    (hashKeyOf iti = hashKeyOf itj →
        dispoAt items j = some CleanDispo.duplicate) := by
  constructor
  · intro u₁ u₂ hu₁ hne₁ hu₂ hne₂ hkey
    have hk₁ : urlKeyOf iti = some (stripP (lowerP u₁)) := by
      unfold urlKeyOf
      rw [hu₁]
      dsimp only
      rw [if_neg (by simpa [List.isEmpty_iff] using hne₁)]
    have hk₂ : urlKeyOf itj = some (stripP (lowerP u₁)) := by
      unfold urlKeyOf
      rw [hu₂]
      dsimp only
      rw [if_neg (by simpa [List.isEmpty_iff] using hne₂), hkey]
    exact pair_url_dup items {} i j iti itj (stripP (lowerP u₁)) hij hi hj hk₁ hk₂
  · intro hkey
    have hnd : dispoAt items i ≠ some CleanDispo.duplicate := by
      rw [hq]
      intro h
      exact absurd (Option.some.inj h) (by decide)
    exact pair_hash_dup items {} i j iti itj hij hi hj hkey hnd

/-- An item with a real URL that fails the quality filter. -/
def qualWitItemA : TrendItem :=
  { source := "news_rss".toList, sourceUrl := some "http://x.com/q".toList,
    title := "ab".toList }

/-- A later item sharing the URL (up to case) that would pass the
quality filter. -/
def qualWitItemB : TrendItem :=
  { source := "reddit".toList, sourceUrl := some "HTTP://X.COM/q".toList,
    title := "a perfectly fine headline".toList }

/-- Witness for C10: the earlier item is quality-dropped, and the later
item sharing its non-empty normalised URL is dropped as a duplicate. -/
theorem cleanBatch_qualityThenDup_C10_witness :
    dispoAt [qualWitItemA, qualWitItemB] 1 = some CleanDispo.duplicate :=
  (cleanBatch_qualityThenDup_C10 [qualWitItemA, qualWitItemB] 0 1
    qualWitItemA qualWitItemB (by decide) rfl rfl (by decide)).1
    "http://x.com/q".toList "HTTP://X.COM/q".toList rfl (by decide) rfl (by decide)
    (by decide)

/-! ### C7 — cross-source fuzzy dedup -/

/-- `itemKeyLe` is reflexive. -/
theorem itemKeyLe_refl (a : TrendItem) : itemKeyLe a a := Or.inr ⟨rfl, le_refl _⟩

/-- Strict key order implies the non-strict one. -/
theorem itemKeyLe_of_lt {a b : TrendItem} (h : itemKeyLt a b) : itemKeyLe a b := by
  unfold itemKeyLt at h
  unfold itemKeyLe
  omega

/-- The key order is total. -/
theorem itemKeyLe_total_of_not_lt {a b : TrendItem} (h : ¬itemKeyLt a b) :
    itemKeyLe b a := by
  unfold itemKeyLt at h
  unfold itemKeyLe
  omega

/-- The key order is transitive. -/
theorem itemKeyLe_trans {a b c : TrendItem} (h₁ : itemKeyLe a b) (h₂ : itemKeyLe b c) :
    itemKeyLe a c := by
  unfold itemKeyLe at *
  omega

/-- `max(group, key=...)` returns a member of the seed-plus-tail group. -/
theorem pickBestAux_mem : ∀ (l : List TrendItem) (b : TrendItem),
    pickBestAux b l = b ∨ pickBestAux b l ∈ l
  | [], b => Or.inl rfl
  | x :: rest, b => by
    simp only [pickBestAux]
    by_cases hlt : itemKeyLt b x
    · rw [if_pos hlt]
      rcases pickBestAux_mem rest x with h | h
      · right
        rw [h]
        exact List.mem_cons_self x rest
      · exact Or.inr (List.mem_cons_of_mem x h)
    · rw [if_neg hlt]
      rcases pickBestAux_mem rest b with h | h
      · exact Or.inl h
      · exact Or.inr (List.mem_cons_of_mem x h)

/-- The selected element's key dominates the seed's. -/
theorem pickBestAux_le_seed : ∀ (l : List TrendItem) (b : TrendItem),
    itemKeyLe b (pickBestAux b l)
  | [], b => itemKeyLe_refl b
  | x :: rest, b => by
    simp only [pickBestAux]
    refine itemKeyLe_trans ?_ (pickBestAux_le_seed rest _)
    by_cases hlt : itemKeyLt b x
    · rw [if_pos hlt]
      exact itemKeyLe_of_lt hlt
    · rw [if_neg hlt]
      exact itemKeyLe_refl b

/-- The selected element's key dominates every tail member's. -/
theorem pickBestAux_le_mem : ∀ (l : List TrendItem) (b y : TrendItem), y ∈ l →
    itemKeyLe y (pickBestAux b l)
  | [], _, y, h => absurd h (List.not_mem_nil y)
  | x :: rest, b, y, h => by
    simp only [pickBestAux]
    rcases List.mem_cons.mp h with rfl | hy
    · refine itemKeyLe_trans ?_ (pickBestAux_le_seed rest _)
      by_cases hlt : itemKeyLt b y
      · rw [if_pos hlt]
        exact itemKeyLe_refl y
      · rw [if_neg hlt]
        exact itemKeyLe_total_of_not_lt hlt
    · exact pickBestAux_le_mem rest _ y hy

/-- Every non-seed member of a greedy group is similar to its seed. -/
theorem buildGroups_sim (th : ℚ) (items : List TrendItem) :
    ∀ seed rest, (seed, rest) ∈ buildGroups th items →
      ∀ y ∈ rest, areSimilarP seed.title y.title th = true := by
  induction items using buildGroups.induct th with
  | case1 => intro seed rest h; simp [buildGroups] at h
  | case2 x l p ih =>
    intro seed rest h y hy
    rw [buildGroups] at h
    rcases List.mem_cons.mp h with heq | hmem
    · obtain ⟨h₁, h₂⟩ := Prod.mk.inj heq
      subst h₁
      subst h₂
      rw [List.partition_eq_filter_filter] at hy
      exact (List.mem_filter.mp hy).2
    · exact ih seed rest hmem y hy

/-- `dedupe_across_sources` is exactly survivor selection mapped over
the greedy groups (the `len(items) <= 1` early return agrees with the
general path). -/
theorem dedupeAcrossSources_eq_map (th : ℚ) (items : List TrendItem) :
    dedupeAcrossSources th items = (buildGroups th items).map pickGroupPair := by
  unfold dedupeAcrossSources
  cases items with
  | nil => simp [buildGroups]
  | cons a l =>
    cases l with
    | nil =>
      rw [if_pos (by simp)]
      rw [buildGroups]
      simp [buildGroups, pickGroupPair, List.partition_eq_filter_filter]
    | cons b l' => rw [if_neg (by simp)]

/-- Scenario item: a reddit post (engagement 10). -/
def mergeItemA : TrendItem :=
  { source := "reddit".toList,
    title := "burna boy drops new single tonight live on radio stations".toList,
    description := "short".toList, engagement := 10 }

/-- Scenario item: the same story from RSS with a 9-of-11 token overlap
(engagement 50). -/
def mergeItemB : TrendItem :=
  { source := "news_rss".toList,
    title := "burna boy drops new single tonight live on radio waves".toList,
    description := "longer description".toList, engagement := 50 }

/-- The scenario titles are Jaccard-similar at the default 0.8 threshold
(9 shared tokens, 11 in the union). -/
theorem mergeItems_similar :
    areSimilarP mergeItemA.title mergeItemB.title (4/5) = true := by
  have h1 : jaccardInter mergeItemA.title mergeItemB.title = 9 := by decide
  have h2 : jaccardUnion mergeItemA.title mergeItemB.title = 11 := by decide
  have e1 : mergeItemA.title.isEmpty = false := by decide
  have e2 : mergeItemB.title.isEmpty = false := by decide
  simp only [areSimilarP, e1, e2, h1, h2, Bool.or_self, Bool.false_eq_true, if_false,
    decide_eq_true_eq]
  norm_num

/-- The greedy grouping puts the two scenario items in one group. -/
theorem mergeGroups :
    buildGroups (4/5) [mergeItemA, mergeItemB] = [(mergeItemA, [mergeItemB])] := by
  rw [buildGroups]
  simp only [List.partition_eq_filter_filter]
  have hf1 : List.filter (fun y => areSimilarP mergeItemA.title y.title (4/5))
      [mergeItemB] = [mergeItemB] := by
    simp [mergeItems_similar]
  have hf2 : List.filter (not ∘ fun y => areSimilarP mergeItemA.title y.title (4/5))
      [mergeItemB] = [] := by
    simp [mergeItems_similar]
  rw [hf1, hf2, buildGroups]

/-- The cross-source merge scenario: one survivor (the higher-engagement
item) whose `merged_sources` lists both source names. -/
theorem mergeScenario :
    dedupeAcrossSources (4/5) [mergeItemA, mergeItemB] =
      [setMerged mergeItemB ["reddit".toList, "news_rss".toList]] := by
  rw [dedupeAcrossSources_eq_map, mergeGroups]
  decide

/-- Claim C7: `dedupe_across_sources` maps survivor selection over the
greedy similarity groups (each group: a seed plus the later items
similar to the seed's title); every non-seed group member is similar to
the seed; a singleton group passes through unchanged; in a merged group
the survivor is a group member whose `(engagement, len(description))`
key dominates every member's, and its `merged_sources` records every
group member's source; and the two-source scenario merges into one
record listing both sources. -/
theorem dedupeAcrossSources_groups_C7 (th : ℚ) (items : List TrendItem) :
    dedupeAcrossSources th items = (buildGroups th items).map pickGroupPair ∧
    (∀ seed rest, (seed, rest) ∈ buildGroups th items →
      (∀ y ∈ rest, areSimilarP seed.title y.title th = true) ∧
      (rest = [] → pickGroupPair (seed, rest) = seed) ∧
      (rest ≠ [] →
        pickGroupPair (seed, rest) =
          setMerged (pickBestAux seed rest)
            (seed.source :: rest.map (fun x => x.source)) ∧
        (pickBestAux seed rest = seed ∨ pickBestAux seed rest ∈ rest) ∧
        itemKeyLe seed (pickBestAux seed rest) ∧
        (∀ y ∈ rest, itemKeyLe y (pickBestAux seed rest)))) ∧
    dedupeAcrossSources (4/5) [mergeItemA, mergeItemB] =
      [setMerged mergeItemB ["reddit".toList, "news_rss".toList]] := by
  refine ⟨dedupeAcrossSources_eq_map th items, ?_, mergeScenario⟩
  intro seed rest hmem
  refine ⟨buildGroups_sim th items seed rest hmem, ?_, ?_⟩
  · intro hre
    subst hre
    simp [pickGroupPair]
  · intro hne
    refine ⟨?_, pickBestAux_mem rest seed, pickBestAux_le_seed rest seed,
      fun y hy => pickBestAux_le_mem rest seed y hy⟩
    unfold pickGroupPair
    rw [if_neg (by simpa [List.isEmpty_iff] using hne)]

/-- Witness for C7, instantiated at the two-item scenario group. -/
theorem dedupeAcrossSources_groups_C7_witness :
    (∀ y ∈ [mergeItemB], areSimilarP mergeItemA.title y.title (4/5) = true) ∧
    ([mergeItemB] = [] → pickGroupPair (mergeItemA, [mergeItemB]) = mergeItemA) ∧
    ([mergeItemB] ≠ [] →
      pickGroupPair (mergeItemA, [mergeItemB]) =
        setMerged (pickBestAux mergeItemA [mergeItemB])
          (mergeItemA.source :: [mergeItemB].map (fun x => x.source)) ∧
      (pickBestAux mergeItemA [mergeItemB] = mergeItemA ∨
        pickBestAux mergeItemA [mergeItemB] ∈ [mergeItemB]) ∧
      itemKeyLe mergeItemA (pickBestAux mergeItemA [mergeItemB]) ∧
      (∀ y ∈ [mergeItemB], itemKeyLe y (pickBestAux mergeItemA [mergeItemB]))) :=
  (dedupeAcrossSources_groups_C7 (4/5) [mergeItemA, mergeItemB]).2.1
    mergeItemA [mergeItemB] (by rw [mergeGroups]; exact List.mem_singleton.mpr rfl)

end SpotPipe
